import Mathlib

/-!
Shallow embedding of `storage-proofs/src/drgraph.rs`: the bucket-sampling
depth-robust graph (`BucketGraph`) and the Merkle proof data model
(`MerkleProof`), with theorems checking the natural-language specification
against the code.

Machine integers are modelled as `Nat` with explicit `% 2 ^ w` where the
source reduces values modulo a word size.  The ChaCha PRNG and the
single-precision `log2`-floor are external collaborators of the function
under scrutiny; both are modelled as opaque function parameters
(`chacha : List Nat → Nat → Nat` mapping a seed to an abstract draw
stream, and `flog2 : Nat → Nat` for `((node * m) as f32).log2().floor()`),
threaded identically through the embedded code and through any
spec-derived reference definition, so every theorem holds for the actual
instantiations.
-/

/-- Abstract PRNG state: a draw stream together with the position of the
next draw.  Models the `ChaChaRng` value held by `BucketGraph::parents`;
each call of a `rand` primitive consumes one abstract draw. -/
structure Rng where
  stream : Nat → Nat
  idx : Nat

/-- Models `rng.gen::<usize>()`: the next machine word of the stream. -/
def Rng.genUsize (r : Rng) : Nat × Rng :=
  (r.stream r.idx % 2 ^ 64, ⟨r.stream, r.idx + 1⟩)

/-- Models `rng.gen_range(lo, hi)` of rand 0.4 for `usize`: a value in
`[lo, hi)` obtained by reducing a drawn machine word modulo the range
width.  (The rejection step of the real sampler only affects which draws
are kept, not the set of reachable values; the stream is universally
quantified in every theorem.) -/
def Rng.genRange (r : Rng) (lo hi : Nat) : Nat × Rng :=
  (lo + r.stream r.idx % 2 ^ 64 % (hi - lo), ⟨r.stream, r.idx + 1⟩)

/-- `BucketGraph { nodes, base_degree, seed }` from drgraph.rs.  The seed
is the graph's 7 words of 32 bits; its length is irrelevant to `parents`
so it is carried as a plain list. -/
structure BucketGraph where
  nodes : Nat
  base_degree : Nat
  seed : List Nat

/-- The per-node 8-word PRNG seed: `seed[0..7] = self.seed;
seed[7] = node as u32`. -/
def bucketSeed (seed : List Nat) (node : Nat) : List Nat :=
  seed ++ [node % 2 ^ 32]

/-- `jj = cmp::min(node * m + k, 1 << (j + 1))` from the parents loop. -/
def bucketJJ (m node k j : Nat) : Nat :=
  min (node * m + k) (1 <<< (j + 1))

/-- `out = (node * m + k - back_dist) / m` from the parents loop. -/
def bucketOut (m node k back_dist : Nat) : Nat :=
  (node * m + k - back_dist) / m

/-- One iteration of the closure in `BucketGraph::parents` for meta node
`k`, threading the PRNG: draw `j`, form `jj`, draw `back_dist`, compute
`out`, and rewrite a self reference to `node - 1`. -/
def bucketStep (flog2 : Nat → Nat) (m node k : Nat) (rng : Rng) : Nat × Rng :=
  let logi := flog2 (node * m)
  let d0 := rng.genUsize
  let j := d0.1 % logi
  let jj := bucketJJ m node k j
  let d1 := d0.2.genRange (max (jj >>> 1) 2) (jj + 1)
  let back_dist := d1.1
  let out := bucketOut m node k back_dist
  (if out = node then node - 1 else out, d1.2)

/-- The `(0..m).map(...)` loop of `BucketGraph::parents`, collecting the
drawn parents left to right while threading the PRNG. -/
def parentsLoop (flog2 : Nat → Nat) (m node : Nat) (t : Nat)
    (st : List Nat × Rng) : List Nat × Rng :=
  (List.range t).foldl
    (fun a k =>
      let pr := bucketStep flog2 m node k a.2
      (a.1 ++ [pr.1], pr.2))
    st

/-- The general (`node ≥ 2`) arm of `BucketGraph::parents`: seed the PRNG
from `seed || node`, run the loop, and `sort_unstable` the result. -/
def parentsCore (flog2 : Nat → Nat) (chacha : List Nat → Nat → Nat)
    (seed : List Nat) (m node : Nat) : List Nat :=
  let rng : Rng := ⟨chacha (bucketSeed seed node), 0⟩
  List.insertionSort (· ≤ ·) (parentsLoop flog2 m node m ([], rng)).1

/-- `BucketGraph::parents` from drgraph.rs: nodes 0 and 1 are special
cased to `vec![0; m]`; every other node runs the bucket-sampling loop. -/
def BucketGraph.parents (flog2 : Nat → Nat) (chacha : List Nat → Nat → Nat)
    (g : BucketGraph) (node : Nat) : List Nat :=
  let m := g.base_degree
  match node with
  | 0 => List.replicate m 0
  | 1 => List.replicate m 0
  | _ => parentsCore flog2 chacha g.seed m node

lemma BucketGraph.parents_of_two_le (flog2 : Nat → Nat)
    (chacha : List Nat → Nat → Nat) (g : BucketGraph) (node : Nat)
    (h : 2 ≤ node) :
    g.parents flog2 chacha node =
      parentsCore flog2 chacha g.seed g.base_degree node := by
  match node, h with
  | n + 2, _ => rfl

/-- Reference bucket-sampling definition, written from the spec's words:
an 8-word seed `seed || (i as u32)` feeds the ChaCha PRNG; for each
`k ∈ [0, d)` the PRNG yields first `j` (a machine word reduced into
`[0, logi)`) and then `back_dist`, drawn from the inclusive range
`[max(jj / 2, 2), jj]` with `jj = min(i·d + k, 2^(j+1))`;
`out = (i·d + k - back_dist) / d` by integer division, `out == i`
replaced by `i - 1`; the `d` results are sorted ascending. -/
def refBucketParents (flog2 : Nat → Nat) (chacha : List Nat → Nat → Nat)
    (seed : List Nat) (d node : Nat) : List Nat :=
  let s := chacha (seed ++ [node % 2 ^ 32])
  List.insertionSort (· ≤ ·) ((List.range d).map fun k =>
    let j := s (2 * k) % 2 ^ 64 % flog2 (node * d)
    let jj := min (node * d + k) (2 ^ (j + 1))
    let lo := max (jj / 2) 2
    let back_dist := lo + s (2 * k + 1) % 2 ^ 64 % (jj - lo + 1)
    let out := (node * d + k - back_dist) / d
    if out = node then node - 1 else out)

/-- The value produced by `bucketStep` when the PRNG stands at position
`i` of stream `s`. -/
def bucketStepVal (flog2 : Nat → Nat) (m node k : Nat) (s : Nat → Nat)
    (i : Nat) : Nat :=
  (bucketStep flog2 m node k ⟨s, i⟩).1

lemma bucketStep_snd (flog2 : Nat → Nat) (m node k : Nat) (s : Nat → Nat)
    (i : Nat) : (bucketStep flog2 m node k ⟨s, i⟩).2 = ⟨s, i + 2⟩ := rfl

lemma parentsLoop_succ (flog2 : Nat → Nat) (m node t : Nat)
    (st : List Nat × Rng) :
    parentsLoop flog2 m node (t + 1) st =
      ((parentsLoop flog2 m node t st).1 ++
          [(bucketStep flog2 m node t (parentsLoop flog2 m node t st).2).1],
        (bucketStep flog2 m node t (parentsLoop flog2 m node t st).2).2) := by
  simp [parentsLoop, List.range_succ]

/-- Each loop iteration consumes exactly two PRNG draws, so iteration `k`
reads stream positions `i + 2k` and `i + 2k + 1`. -/
lemma parentsLoop_eq (flog2 : Nat → Nat) (m node : Nat) (s : Nat → Nat) :
    ∀ (t : Nat) (acc : List Nat) (i : Nat),
      parentsLoop flog2 m node t (acc, ⟨s, i⟩) =
        (acc ++ (List.range t).map
            (fun k => bucketStepVal flog2 m node k s (i + 2 * k)),
          ⟨s, i + 2 * t⟩) := by
  intro t
  induction t with
  | zero => intro acc i; simp [parentsLoop]
  | succ t ih =>
    intro acc i
    rw [parentsLoop_succ, ih acc i, bucketStep_snd]
    have h2 : i + 2 * t + 2 = i + 2 * (t + 1) := by omega
    simp only [List.range_succ, List.map_append, List.map_cons, List.map_nil,
      List.append_assoc, h2]
    try rfl

lemma parentsCore_eq (flog2 : Nat → Nat) (chacha : List Nat → Nat → Nat)
    (seed : List Nat) (m node : Nat) :
    parentsCore flog2 chacha seed m node =
      List.insertionSort (· ≤ ·) ((List.range m).map fun k =>
        bucketStepVal flog2 m node k (chacha (bucketSeed seed node)) (2 * k)) := by
  have h := parentsLoop_eq flog2 m node (chacha (bucketSeed seed node)) m [] 0
  simp only [parentsCore, h, List.nil_append, Nat.zero_add]

/-- C1: for every BucketGraph `(N, d, seed)` and node `i ≥ 2` with
`i·d ≥ 2`, `parents(i)` equals the reference bucket-sampling definition:
seed the PRNG with `seed || (i as u32)`, and for each `k ∈ [0, d)` draw
first `j` then `back_dist` (in that order), `jj = min(i·d + k, 2^(j+1))`,
`back_dist` from the inclusive range `[max(jj/2, 2), jj]`,
`out = (i·d + k - back_dist) / d`, `out == i` replaced by `i - 1`, the
`d` results sorted ascending. -/
theorem parents_eq_refBucketParents (flog2 : Nat → Nat)
    (chacha : List Nat → Nat → Nat) (g : BucketGraph) (node : Nat)
    (h2 : 2 ≤ node) (hnd : 2 ≤ node * g.base_degree) :
    g.parents flog2 chacha node =
      refBucketParents flog2 chacha g.seed g.base_degree node := by
  rw [BucketGraph.parents_of_two_le flog2 chacha g node h2, parentsCore_eq]
  unfold refBucketParents
  simp only [bucketSeed]
  congr 1
  apply List.map_congr_left
  intro k hk
  simp only [bucketStepVal, bucketStep, Rng.genUsize, Rng.genRange, bucketJJ,
    bucketOut]
  set s : Nat → Nat := chacha (g.seed ++ [node % 2 ^ 32]) with hs
  set j := s (2 * k) % 2 ^ 64 % flog2 (node * g.base_degree) with hj
  rw [Nat.shiftLeft_eq, one_mul]
  set jj := min (node * g.base_degree + k) (2 ^ (j + 1)) with hjj
  rw [Nat.shiftRight_eq_div_pow, pow_one]
  set lo := max (jj / 2) 2 with hlo
  have hjj2 : 2 ≤ jj := by
    rw [hjj]
    refine le_min (hnd.trans (Nat.le_add_right _ k)) ?_
    have hp : (2 : Nat) ^ 1 ≤ 2 ^ (j + 1) :=
      Nat.pow_le_pow_right (by norm_num) (by omega)
    simpa using hp
  have hlojj : lo ≤ jj := by
    rw [hlo]
    exact max_le (Nat.div_le_self _ _) hjj2
  have hwidth : jj + 1 - lo = jj - lo + 1 := by omega
  rw [hwidth]

/-- The value of one loop iteration, abstracted: some `j` and some
`back_dist` within the drawn range produce it through `bucketOut` and the
self-reference rewrite. -/
lemma bucketStepVal_spec (flog2 : Nat → Nat) (m node k : Nat)
    (s : Nat → Nat) (i : Nat) (hnd : 2 ≤ node * m) :
    ∃ j bd, max (bucketJJ m node k j / 2) 2 ≤ bd ∧
      bd ≤ bucketJJ m node k j ∧
      bucketStepVal flog2 m node k s i =
        if bucketOut m node k bd = node then node - 1
        else bucketOut m node k bd := by
  simp only [bucketStepVal, bucketStep, Rng.genUsize, Rng.genRange]
  set j := s i % 2 ^ 64 % flog2 (node * m) with hj
  set jj := bucketJJ m node k j with hjj
  set lo := max (jj >>> 1) 2 with hlo
  set bd := lo + s (i + 1) % 2 ^ 64 % (jj + 1 - lo) with hbd
  have hjj2 : 2 ≤ jj := by
    rw [hjj]
    unfold bucketJJ
    refine le_min (hnd.trans (Nat.le_add_right _ k)) ?_
    have hp : (2 : Nat) ^ 1 ≤ 1 <<< (j + 1) := by
      rw [Nat.shiftLeft_eq, one_mul]
      exact Nat.pow_le_pow_right (by norm_num) (by omega)
    simpa using hp
  have hshift : jj >>> 1 = jj / 2 := by
    rw [Nat.shiftRight_eq_div_pow, pow_one]
  have hlojj : lo ≤ jj := by
    rw [hlo, hshift]
    exact max_le (Nat.div_le_self _ _) hjj2
  refine ⟨j, bd, ?_, ?_, ?_⟩
  · rw [hbd, hlo, hshift]
    exact Nat.le_add_right _ _
  · rw [hbd]
    have hr : s (i + 1) % 2 ^ 64 % (jj + 1 - lo) < jj + 1 - lo :=
      Nat.mod_lt _ (by omega)
    omega
  · rfl

/-- Arithmetic core shared by the invariant and safety claims: any
`back_dist` in the drawn range stays below `node·m + k + 1` (no
underflow) and keeps `out` at most `node`. -/
lemma bucket_arith (m node k j bd : Nat) (h2 : 2 ≤ node)
    (hnd : 2 ≤ node * m) (hk : k < m)
    (hlo : max (bucketJJ m node k j / 2) 2 ≤ bd)
    (hhi : bd ≤ bucketJJ m node k j) :
    bd ≤ node * m + k ∧ bucketOut m node k bd ≤ node := by
  have hm : 1 ≤ m := by
    rcases Nat.eq_zero_or_pos m with h | h
    · subst h; simp at hnd
    · exact h
  have hjjle : bucketJJ m node k j ≤ node * m + k := min_le_left _ _
  have hbd2 : 2 ≤ bd := le_trans (le_max_right _ 2) hlo
  have hbdle : bd ≤ node * m + k := hhi.trans hjjle
  refine ⟨hbdle, ?_⟩
  have hlt : node * m + k - bd < (node + 1) * m := by
    rw [add_mul, one_mul]
    have h2t : 2 ≤ node * m := hnd
    generalize node * m = t at h2t hbdle ⊢
    omega
  have := (Nat.div_lt_iff_lt_mul hm).mpr hlt
  unfold bucketOut
  omega

lemma bucketStepVal_lt (flog2 : Nat → Nat) (m node k : Nat) (s : Nat → Nat)
    (i : Nat) (h2 : 2 ≤ node) (hnd : 2 ≤ node * m) (hk : k < m) :
    bucketStepVal flog2 m node k s i < node := by
  obtain ⟨j, bd, hlo, hhi, heq⟩ := bucketStepVal_spec flog2 m node k s i hnd
  rw [heq]
  have harith := bucket_arith m node k j bd h2 hnd hk hlo hhi
  split
  · omega
  · next hne => omega

/-- C3: for every BucketGraph and node `i ≥ 2` with `i·d ≥ 2`,
`parents(i)` has exactly `d` entries, is sorted ascending, and every
entry lies in `[0, i)`. -/
theorem parents_length_sorted_forward (flog2 : Nat → Nat)
    (chacha : List Nat → Nat → Nat) (g : BucketGraph) (node : Nat)
    (h2 : 2 ≤ node) (hnd : 2 ≤ node * g.base_degree) :
    (g.parents flog2 chacha node).length = g.base_degree ∧
    List.Sorted (· ≤ ·) (g.parents flog2 chacha node) ∧
    ∀ x ∈ g.parents flog2 chacha node, x < node := by
  rw [BucketGraph.parents_of_two_le flog2 chacha g node h2, parentsCore_eq]
  refine ⟨?_, ?_, ?_⟩
  · rw [List.length_insertionSort, List.length_map, List.length_range]
  · exact List.sorted_insertionSort _ _
  · intro x hx
    rw [List.mem_insertionSort] at hx
    obtain ⟨k, hkmem, rfl⟩ := List.mem_map.mp hx
    exact bucketStepVal_lt _ _ _ _ _ _ h2 hnd (List.mem_range.mp hkmem)

/-- Witness for C3 at a concrete graph and node. -/
theorem parents_length_sorted_forward_witness :
    ((BucketGraph.mk 3 1 []).parents (fun _ => 1) (fun _ _ => 0) 2).length
        = (BucketGraph.mk 3 1 []).base_degree ∧
    List.Sorted (· ≤ ·)
        ((BucketGraph.mk 3 1 []).parents (fun _ => 1) (fun _ _ => 0) 2) ∧
    ∀ x ∈ (BucketGraph.mk 3 1 []).parents (fun _ => 1) (fun _ _ => 0) 2,
      x < 2 :=
  parents_length_sorted_forward (fun _ => 1) (fun _ _ => 0)
    (BucketGraph.mk 3 1 []) 2 (by decide) (by decide)

/-- Witness for C1 at a concrete graph and node. -/
theorem parents_eq_refBucketParents_witness :
    (BucketGraph.mk 3 1 []).parents (fun _ => 1) (fun _ _ => 0) 2 =
      refBucketParents (fun _ => 1) (fun _ _ => 0) [] 1 2 :=
  parents_eq_refBucketParents (fun _ => 1) (fun _ _ => 0)
    (BucketGraph.mk 3 1 []) 2 (by decide) (by decide)

/-- C4: for every BucketGraph with `d ≥ 1`, `parents(0)` and `parents(1)`
are both `d` copies of `0`. -/
theorem parents_zero_and_one (flog2 : Nat → Nat)
    (chacha : List Nat → Nat → Nat) (g : BucketGraph)
    (hd : 1 ≤ g.base_degree) :
    g.parents flog2 chacha 0 = List.replicate g.base_degree 0 ∧
    g.parents flog2 chacha 1 = List.replicate g.base_degree 0 :=
  ⟨rfl, rfl⟩

/-- Witness for C4 at a concrete graph. -/
theorem parents_zero_and_one_witness :
    (BucketGraph.mk 10 3 [5]).parents (fun _ => 1) (fun _ _ => 0) 0 =
        List.replicate 3 0 ∧
    (BucketGraph.mk 10 3 [5]).parents (fun _ => 1) (fun _ _ => 0) 1 =
        List.replicate 3 0 :=
  parents_zero_and_one (fun _ => 1) (fun _ _ => 0)
    (BucketGraph.mk 10 3 [5]) (by decide)

/-- C5: for every node `i ≥ 2` with `i·d ≥ 2`, every `k < d`, every `j`,
and every `back_dist` within the drawn range
`[max(jj/2, 2), jj]`, the subtraction `i·d + k - back_dist` never
underflows and `out ≤ i`, so the `assert!(out <= node)` in `parents`
never fails. -/
theorem bucket_subtraction_safe (m node k j bd : Nat) (h2 : 2 ≤ node)
    (hnd : 2 ≤ node * m) (hk : k < m)
    (hlo : max (bucketJJ m node k j / 2) 2 ≤ bd)
    (hhi : bd ≤ bucketJJ m node k j) :
    bd ≤ node * m + k ∧ bucketOut m node k bd ≤ node :=
  bucket_arith m node k j bd h2 hnd hk hlo hhi

/-- Witness for C5 at concrete values. -/
theorem bucket_subtraction_safe_witness :
    2 ≤ 2 * 1 + 0 ∧ bucketOut 1 2 0 2 ≤ 2 :=
  bucket_subtraction_safe 1 2 0 0 2 (by decide) (by decide) (by decide)
    (by decide) (by decide)

/-- The hash capability consumed by the proof model (`TreeAlgorithm` in
drgraph.rs): `node` is the layered internal-node transform
`a.node(left, right, layer)`, `leaf` the leaf transform `a.leaf(d)`, and
`hash` the absorb-then-finalize digest of raw bytes (`data.hash(&mut a);
a.hash()`).  The hasher's `reset` makes every use start from the empty
state, so the capability is modelled as pure functions; digests are an
arbitrary type `D` with decidable equality. -/
structure HashAlg (D : Type) where
  node : D → D → Nat → D
  leaf : D → D
  hash : List Nat → D

/-- `MerkleProof { path, root, leaf }` from drgraph.rs.  Each path entry
is `(sibling hash, is_right)` with `is_right` true when the running hash
is the right child at that level. -/
structure MerkleProof (D : Type) where
  path : List (D × Bool)
  root : D
  leaf : D

/-- `path_index`: fold the side bits of the path in reverse order,
`acc ← (acc << 1) + is_right`. -/
def pathIndex {D : Type} (path : List (D × Bool)) : Nat :=
  path.reverse.foldl (fun acc e => (acc <<< 1) + if e.2 then 1 else 0) 0

/-- The hash fold of `MerkleProof::validate`: starting from the leaf,
combine with each path entry in order, `a.node(left, right, i)` with the
running hash on the right when `is_right` holds. -/
def hashChain {D : Type} (A : HashAlg D) (path : List (D × Bool)) (leaf : D) : D :=
  path.enum.foldl
    (fun h ie =>
      if ie.2.2 then A.node ie.2.1 h ie.1 else A.node h ie.2.1 ie.1)
    leaf

/-- `MerkleProof::validate(node)`: reject when `path_index` differs from
the claimed node, otherwise compare the hash fold with the root. -/
def MerkleProof.validate {D : Type} [DecidableEq D] (A : HashAlg D)
    (p : MerkleProof D) (node : Nat) : Bool :=
  if pathIndex p.path ≠ node then false
  else decide (p.root = hashChain A p.path p.leaf)

/-- `MerkleProof::validate_data(data)`: hash the data, apply the leaf
transform and compare with the stored leaf. -/
def MerkleProof.validateData {D : Type} [DecidableEq D] (A : HashAlg D)
    (p : MerkleProof D) (data : List Nat) : Bool :=
  decide (A.leaf (A.hash data) = p.leaf)

/-- `MerkleProof::len()`: all path elements plus 1 for the leaf and 1 for
the root. -/
def MerkleProof.len {D : Type} (p : MerkleProof D) : Nat :=
  p.path.length + 2

/-- `MerkleProof::serialize()` with digest serialization `ser`: for each
path entry the sibling's bytes followed by the `is_right` byte, then the
leaf's bytes, then the root's bytes. -/
def MerkleProof.serialize {D : Type} (ser : D → List Nat)
    (p : MerkleProof D) : List Nat :=
  (p.path.foldl (fun out hb => out ++ ser hb.1 ++ [if hb.2 then 1 else 0]) [])
    ++ ser p.leaf ++ ser p.root

/-- Modelled from the spec: the external merkle_light builder's raw proof
`proof::Proof { lemma, path }` — `lemma[0]` is the leaf digest,
`lemma[1..k]` the sibling digests layer by layer, `lemma[k]` the root,
and `path[j]` is true when the running hash at layer `j` is the left
child.  The crate itself is outside this repository. -/
structure RawProof (D : Type) where
  lem : List D
  pathBits : List Bool

/-- Modelled from the spec: `proof::Proof::item()` returns `lemma[0]`,
the leaf's digest. -/
def RawProof.item {D : Type} [Inhabited D] (p : RawProof D) : D :=
  p.lem.headD default

/-- Modelled from the spec: `proof::Proof::root()` returns the last
element of the lemma. -/
def RawProof.root {D : Type} [Inhabited D] (p : RawProof D) : D :=
  p.lem.getLastD default

/-- `Into<MerkleProof> for proof::Proof<TreeHash>`: zip the lemma minus
its head with the path bits, flipping each bit from is-left to is-right;
the leaf is the item and the root the proof's root. -/
def RawProof.intoMerkleProof {D : Type} [Inhabited D] (p : RawProof D) :
    MerkleProof D :=
  { path := ((p.lem.drop 1).zip p.pathBits).map fun hb => (hb.1, !hb.2)
    root := p.root
    leaf := p.item }

/-- The error cases of `Graph::merkle_tree`. -/
inductive MerkleTreeError where
  | shapeMismatch (actual node_size nodes : Nat)
  | unsupportedNodeSize
  deriving DecidableEq

/-- Modelled from the spec: `util::data_at_node(data, i, node_size)`
slices `data[i * node_size .. (i + 1) * node_size]`. -/
def dataAtNode (data : List Nat) (i node_size : Nat) : List Nat :=
  (data.drop (i * node_size)).take node_size

/-- `Graph::merkle_tree(data, node_size)` for a graph of `size` nodes:
shape check, node-size check, then the sequence of leaf digests handed to
the external tree builder (one plain digest per node slice, no leaf
transform). -/
def merkleTree {D : Type} (A : HashAlg D) (size : Nat) (data : List Nat)
    (node_size : Nat) : Except MerkleTreeError (List D) :=
  if data.length ≠ node_size * size then
    .error (.shapeMismatch data.length node_size size)
  else if ¬(node_size = 16 ∨ node_size = 32 ∨ node_size = 64) then
    .error .unsupportedNodeSize
  else
    .ok ((List.range size).map fun i => A.hash (dataAtNode data i node_size))

/-- Concrete hash capability over `Nat` digests, used by witnesses. -/
def testAlg : HashAlg Nat :=
  { node := fun l r i => l + 2 * r + 3 * i
    leaf := fun d => d + 1
    hash := fun l => l.foldl (· + ·) 0 }

/-- Concrete one-entry proof used by witnesses: the running hash `7` is
the right child of the sibling `5`, so the root is
`node 5 7 0 = 5 + 2·7 + 0 = 19`. -/
def testProof : MerkleProof Nat :=
  { path := [(5, true)], root := 19, leaf := 7 }

/-- Concrete empty-path proof used by witnesses. -/
def testEmptyProof : MerkleProof Nat :=
  { path := [], root := 19, leaf := 19 }

/-- C2: `validate(c)` is true iff the path-derived index equals `c` and
the hash fold from the leaf reaches the root; in particular `validate(j)`
is false for every `j` other than the path-derived index. -/
theorem validate_iff {D : Type} [DecidableEq D] (A : HashAlg D)
    (p : MerkleProof D) (c : Nat) :
    (p.validate A c = true ↔
      pathIndex p.path = c ∧ hashChain A p.path p.leaf = p.root) ∧
    (∀ j, j ≠ pathIndex p.path → p.validate A j = false) := by
  constructor
  · unfold MerkleProof.validate
    by_cases h : pathIndex p.path = c
    · simp [h, eq_comm]
    · simp [h]
  · intro j hj
    unfold MerkleProof.validate
    rw [if_pos (Ne.symm hj)]

/-- Witness for C2: a wrong claimed index is rejected. -/
theorem validate_iff_witness : testProof.validate testAlg 3 = false :=
  (validate_iff testAlg testProof 1).2 3 (by decide)

/-- C10: with an empty path, `validate(c)` is true iff `c = 0` and the
leaf digest equals the root digest. -/
theorem validate_empty_path {D : Type} [DecidableEq D] (A : HashAlg D)
    (p : MerkleProof D) (hp : p.path = []) (c : Nat) :
    p.validate A c = true ↔ c = 0 ∧ p.leaf = p.root := by
  unfold MerkleProof.validate
  rw [hp]
  rw [show pathIndex ([] : List (D × Bool)) = 0 from rfl,
    show hashChain A ([] : List (D × Bool)) p.leaf = p.leaf from rfl]
  by_cases hc : c = 0
  · subst hc
    rw [if_neg (not_not_intro rfl)]
    simp [eq_comm]
  · rw [if_pos (fun h : (0 : Nat) = c => hc h.symm)]
    simp [hc]

/-- Witness for C10 on a concrete empty-path proof. -/
theorem validate_empty_path_witness :
    testEmptyProof.validate testAlg 0 = true ↔
      0 = 0 ∧ testEmptyProof.leaf = testEmptyProof.root :=
  validate_empty_path testAlg testEmptyProof rfl 0

/-- C9: `validate_data(data)` is true iff hashing the data and applying
the leaf transform yields exactly the stored leaf digest. -/
theorem validateData_iff {D : Type} [DecidableEq D] (A : HashAlg D)
    (p : MerkleProof D) (data : List Nat) :
    p.validateData A data = true ↔ A.leaf (A.hash data) = p.leaf := by
  simp [MerkleProof.validateData]

/-- C6: converting a builder raw proof sets the path to the zip of the
lemma minus its head with the path bits (each bit flipped), the leaf to
`lemma[0]`, the root to the last lemma element; the path length equals
the bit-list length and `len()` equals the lemma length. -/
theorem intoMerkleProof_spec {D : Type} [Inhabited D] (p : RawProof D)
    (h : p.lem.length = p.pathBits.length + 2) :
    p.intoMerkleProof.path =
        ((p.lem.drop 1).zip p.pathBits).map (fun hb => (hb.1, !hb.2)) ∧
    p.intoMerkleProof.leaf = p.lem.headD default ∧
    p.intoMerkleProof.root = p.lem.getLastD default ∧
    p.intoMerkleProof.path.length = p.pathBits.length ∧
    p.intoMerkleProof.len = p.lem.length := by
  refine ⟨rfl, rfl, rfl, ?_, ?_⟩
  · simp only [RawProof.intoMerkleProof, List.length_map, List.length_zip,
      List.length_drop]
    omega
  · simp only [MerkleProof.len, RawProof.intoMerkleProof, List.length_map,
      List.length_zip, List.length_drop]
    omega

/-- Witness for C6 on a concrete three-element lemma. -/
theorem intoMerkleProof_spec_witness :
    (RawProof.mk [1, 2, 3] [true] : RawProof Nat).intoMerkleProof.len = 3 :=
  (intoMerkleProof_spec (RawProof.mk [1, 2, 3] [true]) (by decide)).2.2.2.2

lemma foldl_append2_eq_flatten {α β : Type} (f g : α → List β) :
    ∀ (l : List α) (acc : List β),
      l.foldl (fun out x => out ++ f x ++ g x) acc =
        acc ++ (l.map fun x => f x ++ g x).flatten
  | [], acc => by simp
  | x :: l, acc => by
    simp only [List.foldl_cons]
    rw [foldl_append2_eq_flatten f g l (acc ++ f x ++ g x)]
    simp

lemma flatten_map_length {D : Type} (ser : D → List Nat) (w : Nat)
    (hw : ∀ x, (ser x).length = w) :
    ∀ l : List (D × Bool),
      ((l.map fun hb => ser hb.1 ++ [if hb.2 then 1 else 0]).flatten).length =
        l.length * (w + 1)
  | [] => by simp
  | hb :: l => by
    simp [flatten_map_length ser w hw l, hw, Nat.succ_mul]
    omega

/-- C7: `serialize()` is exactly sibling bytes plus one `is_right` byte
per path entry in leaf-first order, then the leaf bytes, then the root
bytes, of total length `path.length · (w + 1) + 2·w` for digest width
`w`. -/
theorem serialize_spec {D : Type} (ser : D → List Nat) (w : Nat)
    (hw : ∀ x, (ser x).length = w) (p : MerkleProof D) :
    p.serialize ser =
        (p.path.map fun hb => ser hb.1 ++ [if hb.2 then 1 else 0]).flatten
          ++ ser p.leaf ++ ser p.root ∧
    (p.serialize ser).length = p.path.length * (w + 1) + 2 * w := by
  have hser : p.serialize ser =
      (p.path.map fun hb => ser hb.1 ++ [if hb.2 then 1 else 0]).flatten
        ++ ser p.leaf ++ ser p.root := by
    unfold MerkleProof.serialize
    rw [foldl_append2_eq_flatten (fun hb => ser hb.1)
      (fun hb => [if hb.2 then 1 else 0]) p.path []]
    simp
  refine ⟨hser, ?_⟩
  rw [hser]
  simp [flatten_map_length ser w hw p.path, hw]
  omega

/-- Witness for C7 with one-byte digests. -/
theorem serialize_spec_witness :
    testProof.serialize (fun n : Nat => [n % 256]) =
        (testProof.path.map fun hb =>
            [hb.1 % 256] ++ [if hb.2 then 1 else 0]).flatten
          ++ [testProof.leaf % 256] ++ [testProof.root % 256] ∧
    (testProof.serialize (fun n : Nat => [n % 256])).length =
        testProof.path.length * (1 + 1) + 2 * 1 :=
  serialize_spec (fun n : Nat => [n % 256]) 1 (fun _ => rfl) testProof

/-- C8: `merkle_tree(data, node_size)` errs exactly when the data length
differs from `node_size · size` (reporting actual and expected
quantities) or the node size is not 16, 32 or 64; otherwise it yields the
digests of the `size` node slices. -/
theorem merkleTree_spec {D : Type} (A : HashAlg D) (size : Nat)
    (data : List Nat) (node_size : Nat) :
    ((∃ e, merkleTree A size data node_size = .error e) ↔
        (data.length ≠ node_size * size ∨
          ¬(node_size = 16 ∨ node_size = 32 ∨ node_size = 64))) ∧
    (data.length ≠ node_size * size →
        merkleTree A size data node_size =
          .error (.shapeMismatch data.length node_size size)) ∧
    (data.length = node_size * size →
      (node_size = 16 ∨ node_size = 32 ∨ node_size = 64) →
        merkleTree A size data node_size =
          .ok ((List.range size).map fun i =>
            A.hash (dataAtNode data i node_size))) := by
  unfold merkleTree
  by_cases h1 : data.length = node_size * size
  · by_cases hns : node_size = 16 ∨ node_size = 32 ∨ node_size = 64
    · simp [h1, hns]
    · simp [h1, hns]
  · simp [h1]

/-- Witness for C8: a well-shaped call succeeds. -/
theorem merkleTree_spec_witness :
    merkleTree testAlg 1 (List.replicate 16 2) 16 =
      .ok ((List.range 1).map fun i =>
        testAlg.hash (dataAtNode (List.replicate 16 2) i 16)) :=
  (merkleTree_spec testAlg 1 (List.replicate 16 2) 16).2.2 (by decide)
    (Or.inl rfl)
